import Mathlib

/-!
Verification of the secure command-resolution engine of term-launcher.

The definitions below are a shallow embedding of `src/launcher.rs` (the
functions `allowed_bins`, `is_executable`, `dir_world_writable`,
`is_allowed_path`, `resolve_command`) and of the resolution fragment of
`launch_app` in `src/main.rs`.  The process environment is a pair of
optional strings (`HOME`, `PATH`); the filesystem is a snapshot giving,
for each path string, its optional metadata and its optional canonical
form (mirroring `fs::metadata` and `fs::canonicalize`, which fail with an
error modelled as `none`).  Paths are the strings the Rust code builds;
the path-level operations used by the code (`Path::is_absolute`,
`Path::join`, `Path::starts_with`, `str::split`) are embedded below with
their Unix semantics.

A second, call-sequenced embedding (`resolve_command_seq`) runs the same
code over a time-indexed filesystem, one tick per filesystem call, so
that statements about a filesystem changing between two calls of the
same function (check-then-use behaviour) are expressible.
-/

namespace TermLauncher

/-- The slice of `std::fs::Metadata` the launcher reads: `is_file()` and
the Unix permission bits `permissions().mode()`. -/
structure Metadata where
  isFile : Bool
  mode : Nat
  deriving DecidableEq

/-- Process environment: the two variables the resolver consults.
`none` models an unset variable; `some ""` is set-but-empty (Rust's
`env::var` returns `Ok("")` in that case). -/
structure Env where
  home : Option String
  path : Option String

/-- A filesystem snapshot: `fs::metadata` and `fs::canonicalize` as
functions from path strings, `none` modelling an `Err` result. -/
structure FS where
  metadata : String → Option Metadata
  canonicalize : String → Option String

/-- `Path::is_absolute` on Unix: the path has a root, i.e. starts
with a slash. -/
def isAbsolute (s : String) : Bool :=
  match s.toList with
  | [] => false
  | c :: _ => c == '/'

/-- Whether a path string ends with the given character (used to embed
`PathBuf::push`, which inserts a separator only when needed). -/
def strEndsWith (s : String) (c : Char) : Bool :=
  match s.toList.getLast? with
  | some d => d == c
  | none => false

/-- `PathBuf::join` on Unix: an absolute right operand replaces the
path; otherwise a separator is inserted unless the left operand is empty
or already ends with one. -/
def pathJoin (d c : String) : String :=
  if isAbsolute c then c
  else if d = "" then c
  else if strEndsWith d '/' then d ++ c
  else d ++ "/" ++ c

/-- Split a character list at every character satisfying `p`, keeping
empty pieces, as Rust's `str::split` does. -/
def splitListPred (p : Char → Bool) : List Char → List (List Char)
  | [] => [[]]
  | ch :: rest =>
    match splitListPred p rest with
    | [] => if p ch then [[], [ch]] else [[ch]]
    | g :: gs => if p ch then [] :: g :: gs else (ch :: g) :: gs

/-- `str::split` with a character predicate, on strings. -/
def splitPred (p : Char → Bool) (s : String) : List String :=
  (splitListPred p s.toList).map String.mk

/-- `str::split(sep)` for a single separator character. -/
def splitOnChar (sep : Char) (s : String) : List String :=
  splitPred (fun ch => ch == sep) s

/-- `str::split_whitespace`: split on whitespace and drop empty
pieces. -/
def splitWhitespace (s : String) : List String :=
  (splitPred Char.isWhitespace s).filter (fun t => t != "")

/-- The normal components of a path string: the pieces between slashes,
with empty pieces and `.` removed, as `Path::components` normalises. -/
def segsOf (p : String) : List String :=
  (splitOnChar '/' p).filter (fun s => s != "" && s != ".")

/-- `Path::components` including the root component, encoded as a
leading `"/"` entry (a normal component can never be `"/"`). -/
def comps (p : String) : List String :=
  (if isAbsolute p then ["/"] else []) ++ segsOf p

/-- `Path::starts_with`: whole-component prefix match, so
`/usr/bin-evil/x` does not start with `/usr/bin`. -/
def pathStartsWith (p base : String) : Bool :=
  List.isPrefixOf (comps base) (comps p)

/-- `allowed_bins` from `src/launcher.rs`: the three system binary
directories, plus `<HOME>/.local/bin` whenever `HOME` is set (Rust's
`env::var("HOME")` is `Ok` for any set value, including the empty
string). -/
def allowed_bins (env : Env) : List String :=
  ["/usr/bin", "/usr/local/bin", "/bin"] ++
    (match env.home with
     | some h => [pathJoin h ".local/bin"]
     | none => [])

/-- `is_executable` from `src/launcher.rs` (Unix variant):
`mode & 0o111 != 0`. -/
def is_executable (m : Metadata) : Bool :=
  m.mode &&& 0o111 != 0

/-- `dir_world_writable` from `src/launcher.rs` (Unix variant): group-
or other-writable permission bits, or unreadable metadata (fail
closed). -/
def dir_world_writable (fs : FS) (dir : String) : Bool :=
  match fs.metadata dir with
  | some m => m.mode &&& 0o022 != 0
  | none => true

/-- `is_allowed_path` from `src/launcher.rs`: canonicalize the
candidate and test whether it starts with the canonical form of some
allowed directory; any canonicalization failure makes the comparison
false. -/
def is_allowed_path (env : Env) (fs : FS) (p : String) : Bool :=
  match fs.canonicalize p with
  | some canon =>
    (allowed_bins env).any (fun base =>
      match fs.canonicalize base with
      | some bc => pathStartsWith canon bc
      | none => false)
  | none => false

/-- The `PATH`-scanning loop of `resolve_command`: for each segment in
order, skip empty, non-absolute and untrusted-writable segments; for
the first surviving segment whose joined candidate is a regular
executable file passing the allowlist check and canonicalizing
successfully, return that canonical path. -/
def scanDirs (env : Env) (fs : FS) (cmd : String) : List String → Option String
  | [] => none
  | d :: rest =>
    if d = "" then scanDirs env fs cmd rest
    else if isAbsolute d = false then scanDirs env fs cmd rest
    else if dir_world_writable fs d = true then scanDirs env fs cmd rest
    else
      match fs.metadata (pathJoin d cmd) with
      | some m =>
        if m.isFile && is_executable m && is_allowed_path env fs (pathJoin d cmd) then
          match fs.canonicalize (pathJoin d cmd) with
          | some canon => some canon
          | none => scanDirs env fs cmd rest
        else scanDirs env fs cmd rest
      | none => scanDirs env fs cmd rest

/-- `resolve_command` from `src/launcher.rs`. -/
def resolve_command (env : Env) (fs : FS) (cmd : String) : Option String :=
  if isAbsolute cmd then
    match fs.metadata cmd with
    | none => none
    | some m =>
      if m.isFile && is_executable m && is_allowed_path env fs cmd then
        fs.canonicalize cmd
      else none
  else
    match env.path with
    | none => none
    | some pe => scanDirs env fs cmd (splitOnChar ':' pe)

/-- One iteration of the `PATH` loop body, as an `Option`: `some c`
exactly when the loop would `return Some(c)` at this directory, `none`
when it would fall through to the next segment. -/
def dirHit (env : Env) (fs : FS) (cmd : String) (d : String) : Option String :=
  if d = "" then none
  else if isAbsolute d = false then none
  else if dir_world_writable fs d = true then none
  else
    match fs.metadata (pathJoin d cmd) with
    | some m =>
      if m.isFile && is_executable m && is_allowed_path env fs (pathJoin d cmd) then
        fs.canonicalize (pathJoin d cmd)
      else none
    | none => none

/-- The resolution fragment of `launch_app` in `src/main.rs`: try
`resolve_command` on the full command string; on failure, split on
whitespace, and if that yields at least two tokens, resolve the first
token alone and prepend the remaining tokens to the explicit argument
list. The result pairs the resolved path with the final argument
option. -/
def launch_plan (env : Env) (fs : FS) (cmd : String) (args : Option (List String)) :
    Option (String × Option (List String)) :=
  match resolve_command env fs cmd with
  | some p => some (p, args)
  | none =>
    match splitWhitespace cmd with
    | b :: r :: rs =>
      match resolve_command env fs b with
      | some p => some (p, some ((r :: rs) ++ args.getD []))
      | none => none
    | _ => none

/-! ### Call-sequenced embedding

`resolve_command` issues several filesystem calls in a fixed order;
the filesystem can change between two of them (the classic
check-then-use situation).  The definitions below run exactly the same
code over a `World`, a filesystem state per instant, consuming one tick
per `fs::metadata` / `fs::canonicalize` call and returning the result
together with the instant after the last call. -/

/-- A filesystem that may change between calls: the state observed by
the call issued at each instant. -/
def World : Type := Nat → FS

/-- The allowlist loop of `is_allowed_path`, sequenced: one
`fs::canonicalize` call per base until the first match. -/
def allowLoopSeq (w : World) (canon : String) : List String → Nat → Bool × Nat
  | [], t => (false, t)
  | b :: rest, t =>
    match (w t).canonicalize b with
    | some bc =>
      if pathStartsWith canon bc then (true, t + 1)
      else allowLoopSeq w canon rest (t + 1)
    | none => allowLoopSeq w canon rest (t + 1)

/-- `is_allowed_path`, sequenced. -/
def is_allowed_path_seq (env : Env) (w : World) (p : String) (t : Nat) : Bool × Nat :=
  match (w t).canonicalize p with
  | some canon => allowLoopSeq w canon (allowed_bins env) (t + 1)
  | none => (false, t + 1)

/-- The `PATH` loop of `resolve_command`, sequenced: the
`dir_world_writable` probe, the candidate `fs::metadata` call, the
allowlist calls and the final `fs::canonicalize` call each consume one
instant. -/
def scanDirsSeq (env : Env) (w : World) (cmd : String) : List String → Nat → Option String × Nat
  | [], t => (none, t)
  | d :: rest, t =>
    if d = "" then scanDirsSeq env w cmd rest t
    else if isAbsolute d = false then scanDirsSeq env w cmd rest t
    else
      match (w t).metadata d with
      | some md =>
        if md.mode &&& 0o022 != 0 then scanDirsSeq env w cmd rest (t + 1)
        else
          match (w (t + 1)).metadata (pathJoin d cmd) with
          | some m =>
            if m.isFile && is_executable m then
              match is_allowed_path_seq env w (pathJoin d cmd) (t + 2) with
              | (true, t3) =>
                match (w t3).canonicalize (pathJoin d cmd) with
                | some c => (some c, t3 + 1)
                | none => scanDirsSeq env w cmd rest (t3 + 1)
              | (false, t3) => scanDirsSeq env w cmd rest t3
            else scanDirsSeq env w cmd rest (t + 2)
          | none => scanDirsSeq env w cmd rest (t + 2)
      | none => scanDirsSeq env w cmd rest (t + 1)

/-- `resolve_command`, sequenced. -/
def resolve_command_seq (env : Env) (w : World) (cmd : String) (t : Nat) :
    Option String × Nat :=
  if isAbsolute cmd then
    match (w t).metadata cmd with
    | none => (none, t + 1)
    | some m =>
      if m.isFile && is_executable m then
        match is_allowed_path_seq env w cmd (t + 1) with
        | (true, t2) => ((w t2).canonicalize cmd, t2 + 1)
        | (false, t2) => (none, t2)
      else (none, t + 1)
  else
    match env.path with
    | none => (none, t)
    | some pe => scanDirsSeq env w cmd (splitOnChar ':' pe) t

/-! ### Concrete filesystem fixtures

Small realistic snapshots used by the witnesses and counterexamples.
`tableFS` canonicalizes each path in its domain to itself (no symlinks),
so canonicalization trivially preserves metadata. -/

/-- A snapshot whose canonicalization is the identity on a finite
domain of paths and fails elsewhere. -/
def tableFS (md : String → Option Metadata) (dom : List String) : FS :=
  ⟨md, fun q => if q ∈ dom then some q else none⟩

/-- Metadata table: an executable file at `/opt/custom/tool`, outside
every trusted directory. -/
def mdOpt : String → Option Metadata := fun q =>
  if q = "/opt/custom/tool" then some ⟨true, 0o755⟩
  else if q = "/usr/bin" then some ⟨false, 0o755⟩
  else if q = "/usr/local/bin" then some ⟨false, 0o755⟩
  else if q = "/bin" then some ⟨false, 0o755⟩
  else none

/-- Snapshot with a valid executable at `/opt/custom/tool`. -/
def fsOpt : FS :=
  tableFS mdOpt ["/opt/custom/tool", "/usr/bin", "/usr/local/bin", "/bin"]

/-- Metadata table: a trusted `/usr/bin` holding `ls` and `myapp`, and
a world-writable `/tmp` also holding an executable `ls`. -/
def mdUsr : String → Option Metadata := fun q =>
  if q = "/usr/bin" then some ⟨false, 0o755⟩
  else if q = "/usr/bin/ls" then some ⟨true, 0o755⟩
  else if q = "/usr/bin/myapp" then some ⟨true, 0o755⟩
  else if q = "/tmp" then some ⟨false, 0o777⟩
  else if q = "/tmp/ls" then some ⟨true, 0o755⟩
  else if q = "/usr/local/bin" then some ⟨false, 0o755⟩
  else if q = "/bin" then some ⟨false, 0o755⟩
  else none

/-- Snapshot with trusted `/usr/bin` and world-writable `/tmp`. -/
def fsUsr : FS :=
  tableFS mdUsr
    ["/usr/bin", "/usr/bin/ls", "/usr/bin/myapp", "/tmp", "/tmp/ls",
     "/usr/local/bin", "/bin"]

/-- Metadata table: `/usr/bin/tool` is a regular file whose only
execute bits are group and other (`mode 0o011`); the owner execute bit
is clear. -/
def mdOwner : String → Option Metadata := fun q =>
  if q = "/usr/bin" then some ⟨false, 0o755⟩
  else if q = "/usr/bin/tool" then some ⟨true, 0o011⟩
  else none

/-- Snapshot whose only candidate lacks the owner execute bit. -/
def fsOwner : FS := tableFS mdOwner ["/usr/bin", "/usr/bin/tool"]

/-- Metadata table for the check-then-use scenarios: a trusted
`/usr/bin` holding the executable `tool9`. -/
def md9 : String → Option Metadata := fun q =>
  if q = "/usr/bin" then some ⟨false, 0o755⟩
  else if q = "/usr/bin/tool9" then some ⟨true, 0o755⟩
  else none

/-- Healthy snapshot for the check-then-use scenarios. -/
def fs9 : FS := tableFS md9 ["/usr/bin", "/usr/bin/tool9"]

/-- A snapshot on which every filesystem call fails. -/
def fsEmpty : FS := ⟨fun _ => none, fun _ => none⟩

/-- World for the `PATH`-scan check-then-use scenario: the filesystem
breaks just before the final canonicalization call (instant 4). -/
def w9scan : World := fun t => if t < 4 then fs9 else fsEmpty

/-- World for the absolute-path check-then-use scenario: the
filesystem breaks just before the final canonicalization call
(instant 3). -/
def w9abs : World := fun t => if t < 3 then fs9 else fsEmpty

/-! ### Helper lemmas -/

/-- If the loop body misses at the head directory, the scan continues
with the remaining directories. -/
theorem scanDirs_cons_miss (env : Env) (fs : FS) (cmd d : String) (rest : List String)
    (hd : dirHit env fs cmd d = none) :
    scanDirs env fs cmd (d :: rest) = scanDirs env fs cmd rest := by
  by_cases h1 : d = ""
  · simp [scanDirs, h1]
  · by_cases h2 : isAbsolute d = false
    · simp [scanDirs, h1, h2]
    · by_cases h3 : dir_world_writable fs d = true
      · simp [scanDirs, h1, h2, h3]
      · simp only [dirHit, if_neg h1, if_neg h2, if_neg h3] at hd
        cases hm : fs.metadata (pathJoin d cmd) with
        | none => simp [scanDirs, h1, h2, h3, hm]
        | some m =>
          simp only [hm] at hd
          by_cases h4 : (m.isFile && is_executable m && is_allowed_path env fs (pathJoin d cmd)) = true
          · rw [if_pos h4] at hd
            simp [scanDirs, h1, h2, h3, hm, h4, hd]
          · simp [scanDirs, h1, h2, h3, hm, h4]

/-- If the loop body hits at the head directory, the scan returns that
hit. -/
theorem scanDirs_cons_hit (env : Env) (fs : FS) (cmd d c : String) (rest : List String)
    (hd : dirHit env fs cmd d = some c) :
    scanDirs env fs cmd (d :: rest) = some c := by
  by_cases h1 : d = ""
  · simp [dirHit, h1] at hd
  · by_cases h2 : isAbsolute d = false
    · simp [dirHit, h1, h2] at hd
    · by_cases h3 : dir_world_writable fs d = true
      · simp [dirHit, h1, h2, h3] at hd
      · simp only [dirHit, if_neg h1, if_neg h2, if_neg h3] at hd
        cases hm : fs.metadata (pathJoin d cmd) with
        | none => simp [hm] at hd
        | some m =>
          simp only [hm] at hd
          by_cases h4 : (m.isFile && is_executable m && is_allowed_path env fs (pathJoin d cmd)) = true
          · rw [if_pos h4] at hd
            simp [scanDirs, h1, h2, h3, hm, h4, hd]
          · rw [if_neg h4] at hd
            cases hd

/-- A directory that is empty, relative, or untrusted-writable never
produces a hit. -/
theorem dirHit_none_of_skip (env : Env) (fs : FS) (cmd d : String)
    (h : d = "" ∨ isAbsolute d = false ∨ dir_world_writable fs d = true) :
    dirHit env fs cmd d = none := by
  rcases h with h | h | h
  · simp [dirHit, h]
  · by_cases h1 : d = ""
    · simp [dirHit, h1]
    · simp [dirHit, h1, h]
  · by_cases h1 : d = ""
    · simp [dirHit, h1]
    · by_cases h2 : isAbsolute d = false
      · simp [dirHit, h1, h2]
      · simp [dirHit, h1, h2, h]

/-- Prepending directories that all miss does not change the scan. -/
theorem scanDirs_append_miss (env : Env) (fs : FS) (cmd : String) (pre l : List String)
    (hpre : ∀ x ∈ pre, dirHit env fs cmd x = none) :
    scanDirs env fs cmd (pre ++ l) = scanDirs env fs cmd l := by
  induction pre with
  | nil => rfl
  | cons d rest ih =>
    rw [List.cons_append,
      scanDirs_cons_miss env fs cmd d (rest ++ l) (hpre d (List.mem_cons_self d rest))]
    exact ih fun x hx => hpre x (List.mem_cons_of_mem d hx)

/-- A scan over directories that all miss returns nothing. -/
theorem scanDirs_none_of_all_miss (env : Env) (fs : FS) (cmd : String) (l : List String)
    (hl : ∀ x ∈ l, dirHit env fs cmd x = none) :
    scanDirs env fs cmd l = none := by
  have h := scanDirs_append_miss env fs cmd l [] hl
  rw [List.append_nil] at h
  exact h

/-- Everything a hit certifies about its directory's candidate. -/
theorem dirHit_sound (env : Env) (fs : FS) (cmd d p : String)
    (h : dirHit env fs cmd d = some p) :
    ∃ m, fs.metadata (pathJoin d cmd) = some m ∧ m.isFile = true ∧
      is_executable m = true ∧ is_allowed_path env fs (pathJoin d cmd) = true ∧
      fs.canonicalize (pathJoin d cmd) = some p := by
  by_cases h1 : d = ""
  · simp [dirHit, h1] at h
  · by_cases h2 : isAbsolute d = false
    · simp [dirHit, h1, h2] at h
    · by_cases h3 : dir_world_writable fs d = true
      · simp [dirHit, h1, h2, h3] at h
      · simp only [dirHit, if_neg h1, if_neg h2, if_neg h3] at h
        cases hm : fs.metadata (pathJoin d cmd) with
        | none => simp [hm] at h
        | some m =>
          simp only [hm] at h
          by_cases h4 : (m.isFile && is_executable m && is_allowed_path env fs (pathJoin d cmd)) = true
          · rw [if_pos h4] at h
            have h4' := h4
            simp only [Bool.and_eq_true] at h4'
            exact ⟨m, rfl, h4'.1.1, h4'.1.2, h4'.2, h⟩
          · rw [if_neg h4] at h
            cases h

/-- A successful scan comes from a hit at some scanned directory. -/
theorem scanDirs_sound (env : Env) (fs : FS) (cmd p : String) (l : List String)
    (h : scanDirs env fs cmd l = some p) :
    ∃ d, d ∈ l ∧ dirHit env fs cmd d = some p := by
  induction l with
  | nil => cases h
  | cons d rest ih =>
    cases hd : dirHit env fs cmd d with
    | some c =>
      rw [scanDirs_cons_hit env fs cmd d c rest hd] at h
      cases h
      exact ⟨d, List.mem_cons_self d rest, hd⟩
    | none =>
      rw [scanDirs_cons_miss env fs cmd d rest hd] at h
      obtain ⟨x, hx, hhit⟩ := ih h
      exact ⟨x, List.mem_cons_of_mem d hx, hhit⟩

/-- Everything a successful resolution certifies: the returned path is
the canonical form of a candidate that was a regular executable file
passing the allowlist check. -/
theorem resolve_sound (env : Env) (fs : FS) (cmd p : String)
    (h : resolve_command env fs cmd = some p) :
    ∃ q m, fs.metadata q = some m ∧ m.isFile = true ∧ is_executable m = true ∧
      is_allowed_path env fs q = true ∧ fs.canonicalize q = some p := by
  unfold resolve_command at h
  by_cases habs : isAbsolute cmd = true
  · rw [if_pos habs] at h
    split at h
    · cases h
    · rename_i m hm
      by_cases h4 : (m.isFile && is_executable m && is_allowed_path env fs cmd) = true
      · rw [if_pos h4] at h
        have h4' := h4
        simp only [Bool.and_eq_true] at h4'
        exact ⟨cmd, m, hm, h4'.1.1, h4'.1.2, h4'.2, h⟩
      · rw [if_neg h4] at h
        cases h
  · rw [if_neg habs] at h
    split at h
    · cases h
    · rename_i pe hpe
      obtain ⟨d, _, hhit⟩ := scanDirs_sound env fs cmd p _ h
      obtain ⟨m, hm, hf, he, ha, hc⟩ := dirHit_sound env fs cmd d p hhit
      exact ⟨pathJoin d cmd, m, hm, hf, he, ha, hc⟩

/-- `tableFS` canonicalization is the identity on its domain, hence
preserves metadata. -/
theorem tableFS_canonicalize_eq (md : String → Option Metadata) (dom : List String)
    (q r : String) (h : (tableFS md dom).canonicalize q = some r) : r = q := by
  simp only [tableFS] at h
  by_cases hq : q ∈ dom
  · rw [if_pos hq] at h
    cases h
    rfl
  · rw [if_neg hq] at h
    cases h

/-- Canonicalization on a `tableFS` snapshot preserves metadata. -/
theorem tableFS_wf (md : String → Option Metadata) (dom : List String)
    (q r : String) (h : (tableFS md dom).canonicalize q = some r) :
    (tableFS md dom).metadata r = (tableFS md dom).metadata q := by
  rw [tableFS_canonicalize_eq md dom q r h]

/-! ### Claim theorems -/

/-- Claim C1: for every absolute path P whose canonical form does not
lie under the canonical form of any trusted directory,
`resolve_command P` returns `none` — even if P is an existing regular
executable file; and an absolute path is accepted exactly when its
metadata is readable, it is a regular file, it is executable, and it
passes the allowlist check, in which case its canonical form is
returned. -/
theorem c1_absolute_path_gate (env : Env) (fs : FS) (P : String)
    (habs : isAbsolute P = true) :
    ((allowed_bins env).all (fun b =>
        match fs.canonicalize P, fs.canonicalize b with
        | some c, some bc => !pathStartsWith c bc
        | _, _ => true) = true →
      resolve_command env fs P = none)
    ∧ (∀ c, resolve_command env fs P = some c ↔
        ∃ m, fs.metadata P = some m ∧ m.isFile = true ∧ is_executable m = true ∧
          is_allowed_path env fs P = true ∧ fs.canonicalize P = some c) := by
  constructor
  · intro hout
    have hallow : is_allowed_path env fs P = false := by
      unfold is_allowed_path
      cases hc : fs.canonicalize P with
      | none => rfl
      | some c =>
        rw [List.all_eq_true] at hout
        cases hany : (allowed_bins env).any (fun base =>
            match fs.canonicalize base with
            | some bc => pathStartsWith c bc
            | none => false) with
        | false => exact hany
        | true =>
          exfalso
          rw [List.any_eq_true] at hany
          obtain ⟨b, hb, hgb⟩ := hany
          have h1 := hout b hb
          cases hcb : fs.canonicalize b with
          | none => simp [hcb] at hgb
          | some bc =>
            simp only [hcb] at hgb
            simp only [hc, hcb] at h1
            rw [hgb] at h1
            simp at h1
    unfold resolve_command
    rw [if_pos habs]
    split
    · rfl
    · rw [if_neg (by simp [hallow])]
  · intro c
    constructor
    · intro h
      unfold resolve_command at h
      rw [if_pos habs] at h
      split at h
      · cases h
      · rename_i m hm
        by_cases h4 : (m.isFile && is_executable m && is_allowed_path env fs P) = true
        · rw [if_pos h4] at h
          have h4' := h4
          simp only [Bool.and_eq_true] at h4'
          exact ⟨m, hm, h4'.1.1, h4'.1.2, h4'.2, h⟩
        · rw [if_neg h4] at h
          cases h
    · rintro ⟨m, hm, hf, he, ha, hcan⟩
      unfold resolve_command
      rw [if_pos habs]
      simp only [hm]
      rw [if_pos (by simp [hf, he, ha])]
      exact hcan

/-- Witness for C1: on a realistic snapshot, `/opt/custom/tool` is an
existing regular executable file, yet resolution refuses it because it
is outside every trusted directory. -/
theorem c1_absolute_path_gate_witness :
    resolve_command ⟨none, none⟩ fsOpt "/opt/custom/tool" = none :=
  (c1_absolute_path_gate ⟨none, none⟩ fsOpt "/opt/custom/tool" (by decide)).1 (by decide)

/-- Claim C2: a `PATH` directory whose permission bits grant group- or
other-write access, or whose metadata cannot be read, is skipped by the
scan; and when every `PATH` segment is empty, relative, or
untrusted-writable, the whole resolution returns `none` rather than
using an untrusted hit. -/
theorem c2_untrusted_dirs_skipped :
    (∀ (env : Env) (fs : FS) (cmd d : String) (rest : List String),
      dir_world_writable fs d = true →
      scanDirs env fs cmd (d :: rest) = scanDirs env fs cmd rest)
    ∧ (∀ (env : Env) (fs : FS) (cmd pe : String),
      isAbsolute cmd = false → env.path = some pe →
      (∀ d ∈ splitOnChar ':' pe,
        d = "" ∨ isAbsolute d = false ∨ dir_world_writable fs d = true) →
      resolve_command env fs cmd = none) := by
  constructor
  · intro env fs cmd d rest h
    exact scanDirs_cons_miss env fs cmd d rest
      (dirHit_none_of_skip env fs cmd d (Or.inr (Or.inr h)))
  · intro env fs cmd pe hrel hpe hall
    unfold resolve_command
    rw [if_neg (by simp [hrel])]
    simp only [hpe]
    exact scanDirs_none_of_all_miss env fs cmd _
      fun x hx => dirHit_none_of_skip env fs cmd x (hall x hx)

/-- Witness for C2: `PATH` is just the world-writable `/tmp`, which
contains an executable `ls`; resolution of `ls` fails instead of using
the untrusted hit. -/
theorem c2_untrusted_dirs_skipped_witness :
    resolve_command ⟨none, some "/tmp"⟩ fsUsr "ls" = none :=
  c2_untrusted_dirs_skipped.2 ⟨none, some "/tmp"⟩ fsUsr "ls" "/tmp"
    (by decide) rfl (by decide)

/-- Counterexample to C3 as stated: on a realistic snapshot (identity
canonicalization), `resolve_command` returns `/usr/bin/tool` whose mode
is `0o011` — the owner execute bit (`0o100`) is clear, so the returned
path is not "marked executable by the owner"; the code only requires
some execute bit (`mode & 0o111 != 0`). -/
theorem c3_counterexample_owner_exec :
    resolve_command ⟨none, none⟩ fsOwner "/usr/bin/tool" = some "/usr/bin/tool"
    ∧ fsOwner.metadata "/usr/bin/tool" = some ⟨true, 0o011⟩
    ∧ (⟨true, 0o011⟩ : Metadata).mode &&& 0o100 = 0 := by
  decide

/-- Claim C3 (amended): whenever `resolve_command` returns `some p` on
a filesystem where canonicalization preserves metadata, `p` denotes a
regular file with at least one execute permission bit set (owner,
group, or other — not necessarily the owner bit), and `p` lies under
the canonical form of a trusted directory by a path-segment-wise
prefix match; and the sibling path `/usr/bin-evil/x` does not match
`/usr/bin` under that test. -/
theorem c3_resolved_invariant :
    (∀ (env : Env) (fs : FS) (cmd p : String),
      (∀ q r, fs.canonicalize q = some r → fs.metadata r = fs.metadata q) →
      resolve_command env fs cmd = some p →
      (∃ m, fs.metadata p = some m ∧ m.isFile = true ∧ is_executable m = true)
      ∧ ∃ b, b ∈ allowed_bins env ∧ ∃ bc, fs.canonicalize b = some bc ∧
          pathStartsWith p bc = true)
    ∧ pathStartsWith "/usr/bin-evil/x" "/usr/bin" = false := by
  constructor
  · intro env fs cmd p hw h
    obtain ⟨q, m, hm, hf, he, ha, hc⟩ := resolve_sound env fs cmd p h
    constructor
    · exact ⟨m, (hw q p hc).trans hm, hf, he⟩
    · unfold is_allowed_path at ha
      simp only [hc] at ha
      rw [List.any_eq_true] at ha
      obtain ⟨b, hb, hbf⟩ := ha
      cases hcb : fs.canonicalize b with
      | none => simp [hcb] at hbf
      | some bc =>
        simp only [hcb] at hbf
        exact ⟨b, hb, bc, hcb, hbf⟩
  · decide

/-- Witness for C3 (amended): applying the invariant to a successful
resolution of `ls` on a realistic snapshot. -/
theorem c3_resolved_invariant_witness :
    (∃ m, fsUsr.metadata "/usr/bin/ls" = some m ∧ m.isFile = true ∧
      is_executable m = true)
    ∧ ∃ b, b ∈ allowed_bins ⟨none, some "/usr/bin"⟩ ∧
        ∃ bc, fsUsr.canonicalize b = some bc ∧
          pathStartsWith "/usr/bin/ls" bc = true :=
  c3_resolved_invariant.1 ⟨none, some "/usr/bin"⟩ fsUsr "ls" "/usr/bin/ls"
    (tableFS_wf mdUsr
      ["/usr/bin", "/usr/bin/ls", "/usr/bin/myapp", "/tmp", "/tmp/ls",
       "/usr/local/bin", "/bin"])
    (by decide)

/-- Claim C4: for a relative name, the scan visits the `PATH` segments
in listed order; if every earlier segment misses (it is skipped or its
candidate fails a check) and segment `d` produces a hit `c`, the
resolution returns `c` — first match wins, `PATH` order is the
tie-break. -/
theorem c4_first_match (env : Env) (fs : FS) (cmd pe c d : String)
    (pre post : List String)
    (hrel : isAbsolute cmd = false) (hpe : env.path = some pe)
    (hsegs : splitOnChar ':' pe = pre ++ d :: post)
    (hpre : ∀ x ∈ pre, dirHit env fs cmd x = none)
    (hd : dirHit env fs cmd d = some c) :
    resolve_command env fs cmd = some c := by
  unfold resolve_command
  rw [if_neg (by simp [hrel])]
  simp only [hpe]
  rw [hsegs, scanDirs_append_miss env fs cmd pre (d :: post) hpre]
  exact scanDirs_cons_hit env fs cmd d c post hd

/-- Witness for C4: with `PATH="/tmp:/usr/bin"`, a world-writable
`/tmp` containing an executable `ls`, and `/usr/bin/ls` present,
resolution returns `/usr/bin/ls`, never `/tmp/ls`. -/
theorem c4_first_match_witness :
    resolve_command ⟨none, some "/tmp:/usr/bin"⟩ fsUsr "ls" = some "/usr/bin/ls"
    ∧ ("/usr/bin/ls" : String) ≠ "/tmp/ls" :=
  ⟨c4_first_match ⟨none, some "/tmp:/usr/bin"⟩ fsUsr "ls" "/tmp:/usr/bin"
      "/usr/bin/ls" "/usr/bin" ["/tmp"] [] (by decide) rfl (by decide) (by decide)
      (by decide),
   by decide⟩

/-- Claim C5: the legacy compound-command fallback activates only
after resolution of the full command string fails; it splits the string
on whitespace once, and only when this yields two or more tokens
re-runs resolution on the first token alone; on success the remaining
tokens become an argument prefix placed before any explicit argument
list. -/
theorem c5_legacy_fallback :
    (∀ (env : Env) (fs : FS) (cmd : String) (args : Option (List String)) (p : String),
      resolve_command env fs cmd = some p →
      launch_plan env fs cmd args = some (p, args))
    ∧ (∀ (env : Env) (fs : FS) (cmd b r : String) (rs : List String)
        (args : Option (List String)) (p : String),
      resolve_command env fs cmd = none →
      splitWhitespace cmd = b :: r :: rs →
      resolve_command env fs b = some p →
      launch_plan env fs cmd args = some (p, some ((r :: rs) ++ args.getD [])))
    ∧ (∀ (env : Env) (fs : FS) (cmd : String) (args : Option (List String)),
      resolve_command env fs cmd = none →
      (splitWhitespace cmd).length ≤ 1 →
      launch_plan env fs cmd args = none) := by
  refine ⟨?_, ?_, ?_⟩
  · intro env fs cmd args p h
    unfold launch_plan
    simp only [h]
  · intro env fs cmd b r rs args p h hsplit hb
    unfold launch_plan
    simp only [h, hsplit, hb]
  · intro env fs cmd args h hlen
    unfold launch_plan
    simp only [h]
    cases hs : splitWhitespace cmd with
    | nil => rfl
    | cons b t =>
      cases t with
      | nil => rfl
      | cons r rs =>
        rw [hs] at hlen
        simp at hlen

/-- Witness for C5: command string `"myapp --verbose"` with explicit
arguments `["--extra"]`; direct resolution fails, resolution of
`"myapp"` succeeds, and the final argument vector is
`["--verbose", "--extra"]`. -/
theorem c5_legacy_fallback_witness :
    launch_plan ⟨none, some "/usr/bin"⟩ fsUsr "myapp --verbose" (some ["--extra"]) =
      some ("/usr/bin/myapp", some ["--verbose", "--extra"]) :=
  c5_legacy_fallback.2.1 ⟨none, some "/usr/bin"⟩ fsUsr "myapp --verbose" "myapp"
    "--verbose" [] (some ["--extra"]) "/usr/bin/myapp" (by decide) (by decide)
    (by decide)

/-- Counterexample to C6 as stated: with `HOME` set to the empty
string (set but empty), `allowed_bins` still appends a fourth entry —
the relative path `.local/bin` — whereas the claim says the append
happens only when `HOME` is set and non-empty. -/
theorem c6_counterexample_empty_home :
    allowed_bins ⟨some "", none⟩ ≠ ["/usr/bin", "/usr/local/bin", "/bin"]
    ∧ allowed_bins ⟨some "", none⟩ =
        ["/usr/bin", "/usr/local/bin", "/bin", ".local/bin"] := by
  decide

/-- Claim C6 (amended): the trusted-directory enumeration always
returns `/usr/bin`, `/usr/local/bin`, `/bin`, and appends
`HOME` joined with `.local/bin` if and only if the `HOME` environment
variable is set — including set-but-empty, in which case the appended
entry is the relative path `.local/bin`; it is a pure function of the
environment (no filesystem argument at all). -/
theorem c6_trusted_dirs :
    ∀ (p : Option String),
      allowed_bins ⟨none, p⟩ = ["/usr/bin", "/usr/local/bin", "/bin"]
      ∧ ∀ h : String, allowed_bins ⟨some h, p⟩ =
          ["/usr/bin", "/usr/local/bin", "/bin", pathJoin h ".local/bin"] :=
  fun _ => ⟨rfl, fun _ => rfl⟩

/-- Claim C7: when `PATH` is unset, resolution of any relative name
returns `none`, while resolution of an absolute path is unaffected by
the value of `PATH`; when `HOME` is unset the allowlist merely omits
the personal-bin directory. -/
theorem c7_environment_missing :
    (∀ (env : Env) (fs : FS) (cmd : String),
      isAbsolute cmd = false → env.path = none → resolve_command env fs cmd = none)
    ∧ (∀ (h p1 p2 : Option String) (fs : FS) (cmd : String),
      isAbsolute cmd = true →
      resolve_command ⟨h, p1⟩ fs cmd = resolve_command ⟨h, p2⟩ fs cmd)
    ∧ ∀ (p : Option String),
        allowed_bins ⟨none, p⟩ = ["/usr/bin", "/usr/local/bin", "/bin"] := by
  refine ⟨?_, ?_, ?_⟩
  · intro env fs cmd hrel hpe
    unfold resolve_command
    rw [if_neg (by simp [hrel])]
    simp only [hpe]
  · intro h p1 p2 fs cmd habs
    unfold resolve_command
    rw [if_pos habs, if_pos habs]
    exact rfl
  · intro p
    rfl

/-- Witness for C7: with `PATH` unset the relative name `ls` is
refused, while the absolute path `/usr/bin/ls` resolves identically
whatever `PATH` holds. -/
theorem c7_environment_missing_witness :
    resolve_command ⟨none, none⟩ fsUsr "ls" = none
    ∧ resolve_command ⟨none, some "/tmp"⟩ fsUsr "/usr/bin/ls" =
        resolve_command ⟨none, none⟩ fsUsr "/usr/bin/ls" :=
  ⟨c7_environment_missing.1 ⟨none, none⟩ fsUsr "ls" (by decide) rfl,
   c7_environment_missing.2.1 none (some "/tmp") none fsUsr "/usr/bin/ls" (by decide)⟩

/-- Claim C8: `resolve_command` is deterministic — two calls with the
same command token against the same environment values and the same
filesystem snapshot yield identical results. -/
theorem c8_deterministic (env : Env) (fs : FS) (cmd : String)
    (r1 r2 : Option String)
    (h1 : r1 = resolve_command env fs cmd) (h2 : r2 = resolve_command env fs cmd) :
    r1 = r2 :=
  h1.trans h2.symm

/-- Witness for C8: two successive resolutions of `ls` over an
unchanged snapshot agree. -/
theorem c8_deterministic_witness :
    resolve_command ⟨none, some "/usr/bin"⟩ fsUsr "ls" =
      resolve_command ⟨none, some "/usr/bin"⟩ fsUsr "ls" :=
  c8_deterministic ⟨none, some "/usr/bin"⟩ fsUsr "ls" _ _ rfl rfl

/-- Claim C9: in the sequenced model, when a scanned candidate passes
the regular-file, executability and allowlist checks but the final
canonicalization call fails (the filesystem changed between the calls),
the scan silently continues with the remaining `PATH` directories; in
the absolute-path branch the same situation yields `none`; and a
snapshot resolution never returns anything but the output of a
canonicalization call. -/
theorem c9_canonicalize_failure :
    (∀ (env : Env) (w : World) (cmd d : String) (rest : List String) (t : Nat)
        (md m : Metadata) (t3 : Nat),
      d ≠ "" → isAbsolute d = true →
      (w t).metadata d = some md → md.mode &&& 0o022 = 0 →
      (w (t + 1)).metadata (pathJoin d cmd) = some m →
      m.isFile = true → is_executable m = true →
      is_allowed_path_seq env w (pathJoin d cmd) (t + 2) = (true, t3) →
      (w t3).canonicalize (pathJoin d cmd) = none →
      scanDirsSeq env w cmd (d :: rest) t = scanDirsSeq env w cmd rest (t3 + 1))
    ∧ (∀ (env : Env) (w : World) (cmd : String) (t : Nat) (m : Metadata) (t2 : Nat),
      isAbsolute cmd = true →
      (w t).metadata cmd = some m → m.isFile = true → is_executable m = true →
      is_allowed_path_seq env w cmd (t + 1) = (true, t2) →
      (w t2).canonicalize cmd = none →
      resolve_command_seq env w cmd t = (none, t2 + 1))
    ∧ (∀ (env : Env) (fs : FS) (cmd p : String),
      resolve_command env fs cmd = some p → ∃ q, fs.canonicalize q = some p) := by
  refine ⟨?_, ?_, ?_⟩
  · intro env w cmd d rest t md m t3 hne habs hmd hmode hm hf he hseq hcanon
    simp only [scanDirsSeq, if_neg hne, if_neg (by simp [habs] :
      ¬isAbsolute d = false), hmd]
    rw [hmode]
    simp only [bne_self_eq_false, if_false, hm, hf, he, Bool.and_self, if_true,
      hseq, hcanon]
    simp
  · intro env w cmd t m t2 habs hm hf he hseq hcanon
    unfold resolve_command_seq
    rw [if_pos habs]
    simp only [hm, hf, he, Bool.and_self, if_true, hseq, hcanon]
  · intro env fs cmd p h
    obtain ⟨q, _, _, _, _, _, hc⟩ := resolve_sound env fs cmd p h
    exact ⟨q, hc⟩

/-- Witness for C9: in a world whose filesystem breaks just before the
final canonicalization call, the scan over `PATH=/usr/bin` continues
past the fully-checked candidate (and then returns `none`), and the
absolute-path branch returns `none` in the same situation. -/
theorem c9_canonicalize_failure_witness :
    scanDirsSeq ⟨none, some "/usr/bin"⟩ w9scan "tool9" ["/usr/bin"] 0 =
      scanDirsSeq ⟨none, some "/usr/bin"⟩ w9scan "tool9" [] 5
    ∧ scanDirsSeq ⟨none, some "/usr/bin"⟩ w9scan "tool9" [] 5 = (none, 5)
    ∧ resolve_command_seq ⟨none, some "/usr/bin"⟩ w9abs "/usr/bin/tool9" 0 =
        (none, 4) :=
  ⟨c9_canonicalize_failure.1 ⟨none, some "/usr/bin"⟩ w9scan "tool9" "/usr/bin" [] 0
      ⟨false, 0o755⟩ ⟨true, 0o755⟩ 4 (by decide) (by decide) (by decide) (by decide)
      (by decide) (by decide) (by decide) (by decide) (by decide),
   by decide,
   c9_canonicalize_failure.2.1 ⟨none, some "/usr/bin"⟩ w9abs "/usr/bin/tool9" 0
      ⟨true, 0o755⟩ 3 (by decide) (by decide) (by decide) (by decide) (by decide)
      (by decide)⟩

/-- Appending a slash makes the last character a slash. -/
theorem strEndsWith_append_slash (d : String) : strEndsWith (d ++ "/") '/' = true := by
  obtain ⟨l⟩ := d
  have h : (String.mk l ++ "/") = String.mk (l ++ ['/']) := rfl
  rw [h]
  simp [strEndsWith, String.toList, List.getLast?_concat]

/-- On a POSIX-consistent filesystem (a path spelled with a trailing
slash never has regular-file metadata), scanning any directory list for
the empty command finds nothing: the joined candidate always carries a
trailing slash. -/
theorem scanDirs_empty_cmd (env : Env) (fs : FS)
    (hpos : ∀ p m, strEndsWith p '/' = true → fs.metadata p = some m →
      m.isFile = false) :
    ∀ l, scanDirs env fs "" l = none := by
  intro l
  induction l with
  | nil => rfl
  | cons d rest ih =>
    by_cases h1 : d = ""
    · simp [scanDirs, h1, ih]
    · by_cases h2 : isAbsolute d = false
      · simp [scanDirs, h1, h2, ih]
      · by_cases h3 : dir_world_writable fs d = true
        · simp [scanDirs, h1, h2, h3, ih]
        · have hslash : strEndsWith (pathJoin d "") '/' = true := by
            unfold pathJoin
            rw [if_neg (by decide), if_neg h1]
            by_cases h4 : strEndsWith d '/' = true
            · rw [if_pos h4]
              have hde : d ++ "" = d := by simp
              rw [hde]
              exact h4
            · rw [if_neg h4]
              have hde : d ++ "/" ++ "" = d ++ "/" := by simp
              rw [hde]
              exact strEndsWith_append_slash d
          cases hm : fs.metadata (pathJoin d "") with
          | none => simp [scanDirs, h1, h2, h3, hm, ih]
          | some m =>
            have hnf : m.isFile = false := hpos _ m hslash hm
            simp [scanDirs, h1, h2, h3, hm, hnf, ih]

/-- Claim C10: on any POSIX-consistent filesystem (trailing-slash
paths never denote regular files) and any environment,
`resolve_command ""` returns `none`: the empty string is not absolute,
and joining it onto a `PATH` directory yields a trailing-slash path
that can never pass the regular-file check. -/
theorem c10_empty_command (env : Env) (fs : FS)
    (hpos : ∀ p m, strEndsWith p '/' = true → fs.metadata p = some m →
      m.isFile = false) :
    resolve_command env fs "" = none := by
  unfold resolve_command
  rw [if_neg (by decide)]
  cases hpe : env.path with
  | none => rfl
  | some pe => exact scanDirs_empty_cmd env fs hpos _

/-- Witness for C10: the empty command resolves to nothing on a
snapshot where every metadata call fails. -/
theorem c10_empty_command_witness :
    resolve_command ⟨some "/home/u", some "/usr/bin"⟩ fsEmpty "" = none :=
  c10_empty_command ⟨some "/home/u", some "/usr/bin"⟩ fsEmpty
    (fun _ _ _ hm => Option.noConfusion hm)

/-! ### Agreement of the two embeddings

Over a constant world (a filesystem that does not change between
calls), the sequenced embedding computes exactly the snapshot
embedding, confirming that both model the same code. -/

/-- The sequenced allowlist loop over a constant world agrees with the
snapshot `any`. -/
theorem allowLoopSeq_const (fs : FS) (canon : String) :
    ∀ (l : List String) (t : Nat),
      (allowLoopSeq (fun _ => fs) canon l t).1 =
        l.any (fun base =>
          match fs.canonicalize base with
          | some bc => pathStartsWith canon bc
          | none => false) := by
  intro l
  induction l with
  | nil => intro t; rfl
  | cons b rest ih =>
    intro t
    simp only [allowLoopSeq, List.any_cons]
    cases hcb : fs.canonicalize b with
    | none => simp [hcb, ih]
    | some bc =>
      by_cases hp : pathStartsWith canon bc = true
      · simp [hcb, hp]
      · simp [hcb, hp, ih]

/-- The sequenced allowlist check over a constant world agrees with
the snapshot check. -/
theorem is_allowed_path_seq_const (env : Env) (fs : FS) (p : String) (t : Nat) :
    (is_allowed_path_seq env (fun _ => fs) p t).1 = is_allowed_path env fs p := by
  simp only [is_allowed_path_seq, is_allowed_path]
  cases hc : fs.canonicalize p with
  | none => simp [hc]
  | some canon => simp [hc, allowLoopSeq_const]

/-- The sequenced `PATH` scan over a constant world agrees with the
snapshot scan. -/
theorem scanDirsSeq_const (env : Env) (fs : FS) (cmd : String) :
    ∀ (l : List String) (t : Nat),
      (scanDirsSeq env (fun _ => fs) cmd l t).1 = scanDirs env fs cmd l := by
  intro l
  induction l with
  | nil => intro t; rfl
  | cons d rest ih =>
    intro t
    by_cases h1 : d = ""
    · simp [scanDirsSeq, scanDirs, h1, ih]
    · by_cases h2 : isAbsolute d = false
      · simp [scanDirsSeq, scanDirs, h1, h2, ih]
      · cases hmd : fs.metadata d with
        | none =>
          have hw : dir_world_writable fs d = true := by
            simp [dir_world_writable, hmd]
          simp [scanDirsSeq, scanDirs, h1, h2, hmd, hw, ih]
        | some md =>
          cases hwb : (md.mode &&& 0o022 != 0) with
          | true =>
            have hw : dir_world_writable fs d = true := by
              simp [dir_world_writable, hmd, hwb]
            simp [scanDirsSeq, scanDirs, h1, h2, hmd, hwb, hw, ih]
          | false =>
            have hw : dir_world_writable fs d = false := by
              simp [dir_world_writable, hmd, hwb]
            cases hm : fs.metadata (pathJoin d cmd) with
            | none => simp [scanDirsSeq, scanDirs, h1, h2, hmd, hwb, hw, hm, ih]
            | some m =>
              by_cases hfe : (m.isFile && is_executable m) = true
              · cases hseq : is_allowed_path_seq env (fun _ => fs) (pathJoin d cmd) (t + 2) with
                | mk b t3 =>
                  have hb2 : is_allowed_path env fs (pathJoin d cmd) = b := by
                    have h5 := is_allowed_path_seq_const env fs (pathJoin d cmd) (t + 2)
                    rw [hseq] at h5
                    exact h5.symm
                  cases b with
                  | true =>
                    cases hc : fs.canonicalize (pathJoin d cmd) with
                    | some c =>
                      simp [scanDirsSeq, scanDirs, h1, h2, hmd, hwb, hw, hm, hfe,
                        hseq, hc, hb2]
                    | none =>
                      simp [scanDirsSeq, scanDirs, h1, h2, hmd, hwb, hw, hm, hfe,
                        hseq, hc, hb2, ih]
                  | false =>
                    simp [scanDirsSeq, scanDirs, h1, h2, hmd, hwb, hw, hm, hfe,
                      hseq, hb2, ih]
              · simp [scanDirsSeq, scanDirs, h1, h2, hmd, hwb, hw, hm, hfe, ih]

/-- The sequenced resolution over a constant world agrees with the
snapshot resolution. -/
theorem resolve_command_seq_const (env : Env) (fs : FS) (cmd : String) (t : Nat) :
    (resolve_command_seq env (fun _ => fs) cmd t).1 = resolve_command env fs cmd := by
  unfold resolve_command_seq resolve_command
  by_cases habs : isAbsolute cmd = true
  · rw [if_pos habs, if_pos habs]
    cases hm : fs.metadata cmd with
    | none => simp [hm]
    | some m =>
      by_cases hfe : (m.isFile && is_executable m) = true
      · cases hseq : is_allowed_path_seq env (fun _ => fs) cmd (t + 1) with
        | mk b t2 =>
          have hb2 : is_allowed_path env fs cmd = b := by
            have h5 := is_allowed_path_seq_const env fs cmd (t + 1)
            rw [hseq] at h5
            exact h5.symm
          cases b with
          | true => simp [hm, hfe, hseq, hb2]
          | false => simp [hm, hfe, hseq, hb2]
      · simp [hm, hfe]
  · rw [if_neg habs, if_neg habs]
    cases hpe : env.path with
    | none => simp [hpe]
    | some pe => simp [hpe, scanDirsSeq_const]

end TermLauncher
